import Mathlib

/-!
Verification of the tensor-conversion and dataset-locator module
`fsl/data/dtifit.py`.

The module is embedded shallowly:

* a numpy `ndarray` is a `shape` (list of axis sizes) together with its
  row-major flat data buffer; machine floats are idealised as `ℚ`, which keeps
  every definition executable and makes the exact-arithmetic round-trip laws
  provable as stated;
* the slicing/stacking expressions of the source act on the flat buffer
  chunkwise (one 3×3 matrix is 9 consecutive entries, one component vector 6,
  one eigenvector 3), which is exactly what the numpy expressions compute in
  row-major order;
* `numpy.linalg.eigh` is an external collaborator, modelled as an abstract
  per-matrix solver parameter; its documented ascending-eigenvalue contract is
  a hypothesis of the theorems that need it;
* exceptions are modelled with `Except`; the two error kinds of the design are
  the two constructors of `FslError`;
* the directory scanned by `getDTIFitDataPrefix` is the list of its entry
  names, and the collaborator predicate `fslimage.looksLikeImage` is an
  abstract `String → Bool` parameter.
-/

namespace Dtifit

/-- Error kinds of the module: shape-contract violations raised eagerly by the
conversion functions, and the not-a-dtifit-directory error raised by the
`DTIFitTensor` constructor.  In the Python source both are `ValueError`s,
distinguished by their message families. -/
inductive FslError where
  | shapeMismatch (msg : String)
  | notADTIFitDir (msg : String)
  deriving DecidableEq, Repr

/-- A numpy ndarray of rationals: a shape together with the row-major flat
data buffer. -/
structure NDArray where
  shape : List ℕ
  data  : List ℚ
  deriving DecidableEq, Repr

/-- Well-formedness: the buffer holds exactly `shape.prod` entries. -/
def NDArray.WF (A : NDArray) : Prop := A.data.length = A.shape.prod

instance (A : NDArray) : Decidable A.WF :=
  inferInstanceAs (Decidable (_ = _))

/-- Python's `shape[-2:]` (a shorter list when the rank is below 2, exactly as
Python slicing behaves). -/
def lastTwoAxes (s : List ℕ) : List ℕ := s.drop (s.length - 2)

/-- Python's `shape[:-2]`: the leading dimensions of a `(*S, 3, 3)` array. -/
def leadShape (s : List ℕ) : List ℕ := s.take (s.length - 2)

/-- Entry of a `(*S,)`-shaped field at flat leading index `n` (0 out of range). -/
def NDArray.scalEntry (A : NDArray) (n : ℕ) : ℚ := A.data.getD n 0

/-- Entry of a `(*S, 3)`-shaped field at flat leading index `n`, component `i`. -/
def NDArray.vecEntry (A : NDArray) (n i : ℕ) : ℚ := A.data.getD (3 * n + i) 0

/-- Entry of a `(*S, 3, 3)`-shaped field at flat leading index `n`, row `i`,
column `j`. -/
def NDArray.matEntry (A : NDArray) (n i j : ℕ) : ℚ := A.data.getD (9 * n + 3 * i + j) 0

/-- How many full 3×3 matrices the buffer holds. -/
def NDArray.numMats (A : NDArray) : ℕ := A.data.length / 9

/-- The array, viewed as a field of 3×3 matrices, is symmetric in its last two
axes at every leading index. -/
def NDArray.IsSym (A : NDArray) : Prop :=
  ∀ n, n < A.numMats → ∀ i, i < 3 → ∀ j, j < 3 → A.matEntry n i j = A.matEntry n j i

instance (A : NDArray) : Decidable A.IsSym := by
  unfold NDArray.IsSym; infer_instance

/-- Row-major data action of `tensorToComponents` (dtifit.py lines 108–115):
stacking the six slices `[..,0,0], [..,0,1], [..,0,2], [..,1,1], [..,1,2],
[..,2,2]` along a new last axis maps each 9-entry matrix chunk
`[a00,a01,a02,a10,a11,a12,a20,a21,a22]` to `[a00,a01,a02,a11,a12,a22]`. -/
def t2cData : List ℚ → List ℚ
  | a0 :: a1 :: a2 :: _a3 :: a4 :: a5 :: _a6 :: _a7 :: a8 :: rest =>
      a0 :: a1 :: a2 :: a4 :: a5 :: a8 :: t2cData rest
  | _ => []

/-- Row-major data action of `componentsToTensor` (dtifit.py lines 129–132):
`first = (c0,c1,c2)`, `second = (c1,c3,c4)`, `third = (c2,c4,c5)` stacked along
the last axis map each 6-entry chunk to the 9 row-major entries
`[c0,c1,c2, c1,c3,c4, c2,c4,c5]`. -/
def c2tData : List ℚ → List ℚ
  | c0 :: c1 :: c2 :: c3 :: c4 :: c5 :: rest =>
      c0 :: c1 :: c2 :: c1 :: c3 :: c4 :: c2 :: c4 :: c5 :: c2tData rest
  | _ => []

/-- Python `tensorToComponents` (dtifit.py lines 99–116).  Shape check first
(`matrices.shape[-2:] != (3, 3)` raises), then the pure slice/stack. -/
def tensorToComponents (M : NDArray) : Except FslError NDArray :=
  if lastTwoAxes M.shape = [3, 3] then
    .ok ⟨leadShape M.shape ++ [6], t2cData M.data⟩
  else .error (.shapeMismatch "Expected 3x3 diffusion tensors")

/-- Python `componentsToTensor` (dtifit.py lines 119–132).  Shape check first
(`components.shape[-1] != 6` raises), then the pure stack.  The check
`shape.getLast? = some 6` renders `shape[-1] == 6`; on a rank-0 input Python's
`shape[-1]` itself raises (an IndexError), outside the documented `(*S, 6)`
domain, so rank-0 behaviour is not part of any claim below. -/
def componentsToTensor (C : NDArray) : Except FslError NDArray :=
  if C.shape.getLast? = some 6 then
    .ok ⟨C.shape.dropLast ++ [3, 3], c2tData C.data⟩
  else .error (.shapeMismatch "Expected 6 unique components of diffusion tensor")

/-- Data action of the broadcast sum of `eigendecompositionToTensor`
(dtifit.py lines 63–67).  Entry `(i, j)` of
`L1[...,None,None] * V1[...,None,:] * V1[...,:,None] + ...` is
`L1·V1[j]·V1[i] + L2·V2[j]·V2[i] + L3·V3[j]·V3[i]`; per leading index the
computation consumes one value from each eigenvalue buffer and three from each
eigenvector buffer and emits the 9 row-major entries. -/
def e2tData : List ℚ → List ℚ → List ℚ → List ℚ → List ℚ → List ℚ → List ℚ
  | a :: l1, b :: l2, c :: l3,
    x0 :: x1 :: x2 :: v1, y0 :: y1 :: y2 :: v2, z0 :: z1 :: z2 :: v3 =>
      (a*x0*x0 + b*y0*y0 + c*z0*z0) ::
      (a*x1*x0 + b*y1*y0 + c*z1*z0) ::
      (a*x2*x0 + b*y2*y0 + c*z2*z0) ::
      (a*x0*x1 + b*y0*y1 + c*z0*z1) ::
      (a*x1*x1 + b*y1*y1 + c*z1*z1) ::
      (a*x2*x1 + b*y2*y1 + c*z2*z1) ::
      (a*x0*x2 + b*y0*y2 + c*z0*z2) ::
      (a*x1*x2 + b*y1*y2 + c*z1*z2) ::
      (a*x2*x2 + b*y2*y2 + c*z2*z2) ::
      e2tData l1 l2 l3 v1 v2 v3
  | _, _, _, _, _, _ => []

/-- Python `eigendecompositionToTensor` (dtifit.py lines 44–67).  The source
first checks `L2.shape` and `L3.shape` against `check_shape = L1.shape`, then
checks each eigenvector shape against `eigen_value.shape + (3,)` where
`eigen_value` is the variable left over from the previous loop, i.e. `L3`
(equivalent to `L1.shape + (3,)` because `L3.shape = L1.shape` was just
established); the embedding follows the source literally. -/
def eigendecompositionToTensor (V1 V2 V3 L1 L2 L3 : NDArray) : Except FslError NDArray :=
  if L2.shape = L1.shape ∧ L3.shape = L1.shape then
    if V1.shape = L3.shape ++ [3] ∧ V2.shape = L3.shape ++ [3] ∧ V3.shape = L3.shape ++ [3] then
      .ok ⟨L1.shape ++ [3, 3], e2tData L1.data L2.data L3.data V1.data V2.data V3.data⟩
    else .error (.shapeMismatch "Not all eigenvectors have the same shape as the eigenvalues")
  else .error (.shapeMismatch "Not all eigenvalues have the same shape")

/-- Abstract symmetric eigen-solver standing for the external collaborator
`numpy.linalg.eigh` on one 3×3 matrix: given the 9 row-major entries it returns
`(vals, vecs)` where `vals` lists the 3 eigenvalues and `vecs` the 9 row-major
entries of the eigenvector matrix, column `k` of `vecs` pairing with `vals[k]`.
The solver's documented ascending-order guarantee is the separate predicate
`EighAscending`, assumed where a theorem needs it. -/
def Eigh : Type := List ℚ → List ℚ × List ℚ

/-- The ascending-eigenvalue contract of `numpy.linalg.eigh`:
`vals[0] ≤ vals[1] ≤ vals[2]` on every input. -/
def EighAscending (eigh : Eigh) : Prop :=
  ∀ c, (eigh c).1.getD 0 0 ≤ (eigh c).1.getD 1 0 ∧ (eigh c).1.getD 1 0 ≤ (eigh c).1.getD 2 0

/-- Data action of `vals[:, k]` over the flattened matrix batch of
`tensorToEigendecomposition`: one solver eigenvalue per 9-entry matrix chunk. -/
def t2eValsData (eigh : Eigh) (k : ℕ) : List ℚ → List ℚ
  | a0 :: a1 :: a2 :: a3 :: a4 :: a5 :: a6 :: a7 :: a8 :: rest =>
      (eigh [a0, a1, a2, a3, a4, a5, a6, a7, a8]).1.getD k 0 :: t2eValsData eigh k rest
  | _ => []

/-- Data action of `vecs[:, :, k]` over the flattened matrix batch: the three
entries of eigenvector column `k` (row-major positions `k`, `3+k`, `6+k`) per
9-entry matrix chunk. -/
def t2eVecsData (eigh : Eigh) (k : ℕ) : List ℚ → List ℚ
  | a0 :: a1 :: a2 :: a3 :: a4 :: a5 :: a6 :: a7 :: a8 :: rest =>
      (eigh [a0, a1, a2, a3, a4, a5, a6, a7, a8]).2.getD k 0 ::
      (eigh [a0, a1, a2, a3, a4, a5, a6, a7, a8]).2.getD (3 + k) 0 ::
      (eigh [a0, a1, a2, a3, a4, a5, a6, a7, a8]).2.getD (6 + k) 0 ::
      t2eVecsData eigh k rest
  | _ => []

/-- Python `tensorToEigendecomposition` (dtifit.py lines 70–96), parametrised
by the abstract solver.  Shape check first, then the flattened batch solve;
`l1 = vals[:, 2]`, `l2 = vals[:, 1]`, `l3 = vals[:, 0]` and
`v1 = vecs[:, :, 2]`, `v2 = vecs[:, :, 1]`, `v3 = vecs[:, :, 0]`, reshaped back
over the leading shape.  The result tuple is `(V1, V2, V3, L1, L2, L3)`. -/
def tensorToEigendecomposition (eigh : Eigh) (M : NDArray) :
    Except FslError (NDArray × NDArray × NDArray × NDArray × NDArray × NDArray) :=
  if lastTwoAxes M.shape = [3, 3] then
    .ok (⟨leadShape M.shape ++ [3], t2eVecsData eigh 2 M.data⟩,
         ⟨leadShape M.shape ++ [3], t2eVecsData eigh 1 M.data⟩,
         ⟨leadShape M.shape ++ [3], t2eVecsData eigh 0 M.data⟩,
         ⟨leadShape M.shape, t2eValsData eigh 2 M.data⟩,
         ⟨leadShape M.shape, t2eValsData eigh 1 M.data⟩,
         ⟨leadShape M.shape, t2eValsData eigh 0 M.data⟩)
  else .error (.shapeMismatch "Expected 3x3 diffusion tensors")

/-- Python `eigendecompositionToComponents` (dtifit.py lines 135–148): the pure
composition, no extra logic. -/
def eigendecompositionToComponents (V1 V2 V3 L1 L2 L3 : NDArray) : Except FslError NDArray :=
  (eigendecompositionToTensor V1 V2 V3 L1 L2 L3).bind tensorToComponents

/-- Python `componentsToEigendecomposition` (dtifit.py lines 151–159): the pure
composition, no extra logic. -/
def componentsToEigendecomposition (eigh : Eigh) (C : NDArray) :
    Except FslError (NDArray × NDArray × NDArray × NDArray × NDArray × NDArray) :=
  (componentsToTensor C).bind (tensorToEigendecomposition eigh)

/-- Python `decomposeTensorMatrix` (dtifit.py lines 240–253): an alias for
`componentsToEigendecomposition`. -/
def decomposeTensorMatrix (eigh : Eigh) (data : NDArray) :
    Except FslError (NDArray × NDArray × NDArray × NDArray × NDArray × NDArray) :=
  componentsToEigendecomposition eigh data

/-- Python `looksLikeTensorImage` (dtifit.py lines 233–238), over the image's
shape: exactly 4 dimensions with 6 volumes in the fourth. -/
def looksLikeTensorImage (shape : List ℕ) : Bool :=
  shape.length == 4 && shape.getD 3 0 == 6

/-- The six dtifit file-name tags, in the source's glob order. -/
def dtifitTags : List String := ["V1", "V2", "V3", "L1", "L2", "L3"]

/-- Does `p` occur as a contiguous run inside `s`? -/
def hasInfixOf (p : List Char) : List Char → Bool
  | [] => p.isEmpty
  | c :: s => p.isPrefixOf (c :: s) || hasInfixOf p s

/-- Glob `*_tag.*` restricted to one directory entry: the name contains
`_tag.` and is not a hidden file (glob's `*` never matches a leading dot). -/
def globMatch (tag : String) (f : String) : Bool :=
  match f.toList with
  | [] => false
  | c :: cs => c != '.' && hasInfixOf ("_" ++ tag ++ ".").toList (c :: cs)

/-- The flattened `files = [v1s, v2s, v3s, l1s, l2s, l3s]` of
`getDTIFitDataPrefix` (dtifit.py lines 173–185), in the source's order. -/
def matchedFiles (entries : List String) : List String :=
  entries.filter (globMatch "V1") ++ entries.filter (globMatch "V2") ++
  entries.filter (globMatch "V3") ++ entries.filter (globMatch "L1") ++
  entries.filter (globMatch "L2") ++ entries.filter (globMatch "L3")

/-- One of `_V1`, `_V2`, `_V3`, `_L1`, `_L2`, `_L3` begins at the head of `s`. -/
def tagAtHead (s : List Char) : Bool :=
  dtifitTags.any (fun t => ('_' :: t.toList).isPrefixOf s)

/-- Index of the rightmost occurrence of `_tag` in `s`: where the greedy
capture `(.*)` of the regex `^(.*)_(?:V1|V2|V3|L1|L2|L3).*$` stops. -/
def lastTagIdx : List Char → Option ℕ
  | [] => none
  | c :: s =>
    match lastTagIdx s with
    | some i => some (i + 1)
    | none => if tagAtHead (c :: s) then some 0 else none

/-- The regex capture group `re.findall(pattern, f)[0]`: everything before the
rightmost `_tag`.  `none` when the regex does not match (Python would raise an
IndexError there, but every glob-matched file does match). -/
def tagStem (f : String) : Option String :=
  (lastTagIdx f.toList).map (fun i => ⟨f.toList.take i⟩)

/-- One step of building the `prefixes` dict (dtifit.py lines 190–195): append
`f` to the group keyed by `p`, adding a fresh group when `p` is new. -/
def addFile (gs : List (String × List String)) (p f : String) : List (String × List String) :=
  match gs with
  | [] => [(p, [f])]
  | (q, fs) :: rest => if q = p then (q, fs ++ [f]) :: rest else (q, fs) :: addFile rest p f

/-- The loop body of the dict build: file `f` joins the group of its stem
(files whose stem the regex would not produce are skipped; Python would raise
there, and no glob-matched file reaches that case). -/
def groupStep (gs : List (String × List String)) (f : String) : List (String × List String) :=
  match tagStem f with
  | some p => addFile gs p f
  | none => gs

/-- The `prefixes` dict: glob-matched files grouped by their stem, in first-seen
key order (the final result is order-independent because the source sorts). -/
def groupsOf (files : List String) : List (String × List String) :=
  files.foldl groupStep []

/-- The stems present in the dict (proof-layer vocabulary). -/
def keysOf (gs : List (String × List String)) : List String := gs.map (fun g => g.1)

/-- First-match lookup of a stem's group in the dict, `[]` when absent
(proof-layer vocabulary). -/
def groupFind : List (String × List String) → String → List String
  | [], _ => []
  | (q, fs) :: rest, p => if q = p then fs else groupFind rest p

/-- The groups surviving both discard passes (dtifit.py lines 197–208): the
group holds exactly 6 files, and every file in it satisfies the collaborator
predicate `fslimage.looksLikeImage`, abstracted as `lLI`. -/
def keptGroups (lLI : String → Bool) (entries : List String) : List (String × List String) :=
  ((groupsOf (matchedFiles entries)).filter (fun g => g.2.length == 6)).filter
    (fun g => g.2.all lLI)

/-- Code-point lexicographic `≤` on char lists: the order Python's `sorted`
uses on strings. -/
def lexLe : List Char → List Char → Bool
  | [], _ => true
  | _ :: _, [] => false
  | a :: as, b :: bs =>
    if a.toNat < b.toNat then true
    else if b.toNat < a.toNat then false
    else lexLe as bs

/-- Code-point lexicographic `≤` on strings. -/
def strLeB (a b : String) : Bool := lexLe a.toList b.toList

/-- `sorted(ps)[0]` on a possibly-empty list: the minimum under `strLeB`. -/
def minStr : List String → Option String
  | [] => none
  | s :: ss => some (ss.foldl (fun a b => if strLeB a b then a else b) s)

/-- Python `getDTIFitDataPrefix` (dtifit.py lines 167–222), over the scanned
directory's entry-name list, with `fslimage.looksLikeImage` abstracted as
`lLI`.  Every candidate file lives in the one scanned directory, so the
directory part of each glob path is a common literal prefix of all candidate
stems: grouping, the length-6 and image filters, and the lexicographic sort
behave identically at the entry-name level, and `op.basename` on the winning
stem is the identity there.  Returns `none` when no prefix survives, else the
smallest surviving stem under the sort order. -/
def getDTIFitDataPrefix (lLI : String → Bool) (entries : List String) : Option String :=
  minStr ((keptGroups lLI entries).map (fun g => g.1))

/-- The warning condition of dtifit.py lines 219–220: more than one prefix
survived (`log.warning` is the only effect; the model records its trigger). -/
def multiplePrefixesWarning (lLI : String → Bool) (entries : List String) : Bool :=
  1 < (keptGroups lLI entries).length

/-- Python `isDTIFitPath` (dtifit.py lines 225–230). -/
def isDTIFitPath (lLI : String → Bool) (entries : List String) : Bool :=
  (getDTIFitDataPrefix lLI entries).isSome

/-- The fields of a constructed `DTIFitTensor` the model records: the six image
paths (without extension) the constructor loads.  Image loading itself and the
adoption of the L1 header are collaborator calls abstracted away. -/
structure DTIFitTensor where
  v1 : String
  v2 : String
  v3 : String
  l1 : String
  l2 : String
  l3 : String
  deriving DecidableEq, Repr

/-- The constructor `DTIFitTensor.__init__` (dtifit.py lines 257–281): resolve
the prefix, fail with the not-a-dtifit-directory error when none is found,
otherwise record the six image paths `{p}_V1 … {p}_L3`. -/
def DTIFitTensor.init (lLI : String → Bool) (entries : List String) :
    Except FslError DTIFitTensor :=
  match getDTIFitDataPrefix lLI entries with
  | none => .error (.notADTIFitDir "does not look like a dtifit output directory!")
  | some p => .ok ⟨p ++ "_V1", p ++ "_V2", p ++ "_V3", p ++ "_L1", p ++ "_L2", p ++ "_L3"⟩

/-- The 9 row-major entries of matrix `n` of the flattened batch
`matrices.reshape((-1, 3, 3))`: what the solver receives at leading index `n`. -/
def chunkAt (d : List ℚ) (n : ℕ) : List ℚ := (d.drop (9 * n)).take 9

/-- Flat position inside a 9-entry matrix chunk of component `k` of the
components vector: the index table of §4 of the design. -/
def cIdx : ℕ → ℕ
  | 0 => 0 | 1 => 1 | 2 => 2 | 3 => 4 | 4 => 5 | _ => 8

/-- Flat position inside a 6-entry components chunk of matrix entry `(i, j)`:
row0 = (c0,c1,c2), row1 = (c1,c3,c4), row2 = (c2,c4,c5). -/
def tIdx : ℕ → ℕ → ℕ
  | 0, 0 => 0 | 0, 1 => 1 | 0, 2 => 2
  | 1, 0 => 1 | 1, 1 => 3 | 1, 2 => 4
  | 2, 0 => 2 | 2, 1 => 4 | _, _ => 5

lemma cons_of_length_pos {α : Type} {d : List α} (h : 0 < d.length) : ∃ a tl, d = a :: tl := by
  cases d with
  | nil => simp at h
  | cons a tl => exact ⟨a, tl, rfl⟩

lemma exists_cons3 {d : List ℚ} (h : 3 ≤ d.length) :
    ∃ a0 a1 a2 tl, d = a0 :: a1 :: a2 :: tl := by
  obtain ⟨a0, d, rfl⟩ := cons_of_length_pos (d := d) (by omega)
  simp only [List.length_cons] at h
  obtain ⟨a1, d, rfl⟩ := cons_of_length_pos (d := d) (by omega)
  simp only [List.length_cons] at h
  obtain ⟨a2, d, rfl⟩ := cons_of_length_pos (d := d) (by omega)
  exact ⟨a0, a1, a2, d, rfl⟩

lemma exists_cons6 {d : List ℚ} (h : 6 ≤ d.length) :
    ∃ a0 a1 a2 a3 a4 a5 tl, d = a0 :: a1 :: a2 :: a3 :: a4 :: a5 :: tl := by
  obtain ⟨a0, a1, a2, d, rfl⟩ := exists_cons3 (d := d) (by omega)
  simp only [List.length_cons] at h
  obtain ⟨a3, a4, a5, d, rfl⟩ := exists_cons3 (d := d) (by omega)
  exact ⟨a0, a1, a2, a3, a4, a5, d, rfl⟩

lemma exists_cons9 {d : List ℚ} (h : 9 ≤ d.length) :
    ∃ a0 a1 a2 a3 a4 a5 a6 a7 a8 tl,
      d = a0 :: a1 :: a2 :: a3 :: a4 :: a5 :: a6 :: a7 :: a8 :: tl := by
  obtain ⟨a0, a1, a2, d, rfl⟩ := exists_cons3 (d := d) (by omega)
  simp only [List.length_cons] at h
  obtain ⟨a3, a4, a5, d, rfl⟩ := exists_cons3 (d := d) (by omega)
  simp only [List.length_cons] at h
  obtain ⟨a6, a7, a8, d, rfl⟩ := exists_cons3 (d := d) (by omega)
  exact ⟨a0, a1, a2, a3, a4, a5, a6, a7, a8, d, rfl⟩

lemma getD_shift3 (a0 a1 a2 : ℚ) (tl : List ℚ) (m : ℕ) :
    (a0 :: a1 :: a2 :: tl).getD (m + 3) 0 = tl.getD m 0 := by
  have h : m + 3 = m + 1 + 1 + 1 := by ring
  rw [h]; simp only [List.getD_cons_succ]

lemma getD_shift6 (a0 a1 a2 a3 a4 a5 : ℚ) (tl : List ℚ) (m : ℕ) :
    (a0 :: a1 :: a2 :: a3 :: a4 :: a5 :: tl).getD (m + 6) 0 = tl.getD m 0 := by
  have h : m + 6 = m + 3 + 3 := by ring
  rw [h, getD_shift3, getD_shift3]

lemma getD_shift9 (a0 a1 a2 a3 a4 a5 a6 a7 a8 : ℚ) (tl : List ℚ) (m : ℕ) :
    (a0 :: a1 :: a2 :: a3 :: a4 :: a5 :: a6 :: a7 :: a8 :: tl).getD (m + 9) 0 = tl.getD m 0 := by
  have h : m + 9 = m + 3 + 3 + 3 := by ring
  rw [h, getD_shift3, getD_shift3, getD_shift3]

lemma drop_shift9 (a0 a1 a2 a3 a4 a5 a6 a7 a8 : ℚ) (tl : List ℚ) (m : ℕ) :
    (a0 :: a1 :: a2 :: a3 :: a4 :: a5 :: a6 :: a7 :: a8 :: tl).drop (m + 9) = tl.drop m := by
  have h : m + 9 = m + 1 + 1 + 1 + 1 + 1 + 1 + 1 + 1 + 1 := by ring
  rw [h]; simp only [List.drop_succ_cons]

lemma t2cData_length : ∀ (m : ℕ) (d : List ℚ), d.length = 9 * m → (t2cData d).length = 6 * m := by
  intro m
  induction m with
  | zero =>
      intro d hd
      have : d = [] := List.eq_nil_of_length_eq_zero (by omega)
      subst this; simp [t2cData]
  | succ k ih =>
      intro d hd
      obtain ⟨a0, a1, a2, a3, a4, a5, a6, a7, a8, tl, rfl⟩ := exists_cons9 (d := d) (by omega)
      simp only [List.length_cons] at hd
      simp only [t2cData, List.length_cons]
      have := ih tl (by omega)
      omega

lemma c2tData_length : ∀ (m : ℕ) (d : List ℚ), d.length = 6 * m → (c2tData d).length = 9 * m := by
  intro m
  induction m with
  | zero =>
      intro d hd
      have : d = [] := List.eq_nil_of_length_eq_zero (by omega)
      subst this; simp [c2tData]
  | succ k ih =>
      intro d hd
      obtain ⟨a0, a1, a2, a3, a4, a5, tl, rfl⟩ := exists_cons6 (d := d) (by omega)
      simp only [List.length_cons] at hd
      simp only [c2tData, List.length_cons]
      have := ih tl (by omega)
      omega

lemma e2tData_length : ∀ (m : ℕ) (l1 l2 l3 v1 v2 v3 : List ℚ),
    l1.length = m → l2.length = m → l3.length = m →
    v1.length = 3 * m → v2.length = 3 * m → v3.length = 3 * m →
    (e2tData l1 l2 l3 v1 v2 v3).length = 9 * m := by
  intro m
  induction m with
  | zero =>
      intro l1 l2 l3 v1 v2 v3 h1 h2 h3 h4 h5 h6
      obtain rfl : l1 = [] := List.eq_nil_of_length_eq_zero (by omega)
      simp [e2tData]
  | succ k ih =>
      intro l1 l2 l3 v1 v2 v3 h1 h2 h3 h4 h5 h6
      obtain ⟨a, l1, rfl⟩ := cons_of_length_pos (d := l1) (by omega)
      obtain ⟨b, l2, rfl⟩ := cons_of_length_pos (d := l2) (by omega)
      obtain ⟨c, l3, rfl⟩ := cons_of_length_pos (d := l3) (by omega)
      obtain ⟨x0, x1, x2, v1, rfl⟩ := exists_cons3 (d := v1) (by omega)
      obtain ⟨y0, y1, y2, v2, rfl⟩ := exists_cons3 (d := v2) (by omega)
      obtain ⟨z0, z1, z2, v3, rfl⟩ := exists_cons3 (d := v3) (by omega)
      simp only [List.length_cons] at h1 h2 h3 h4 h5 h6
      simp only [e2tData, List.length_cons]
      have := ih l1 l2 l3 v1 v2 v3 (by omega) (by omega) (by omega) (by omega) (by omega) (by omega)
      omega

lemma t2cData_getD : ∀ (n : ℕ) (d : List ℚ) (k : ℕ), k < 6 → 9 * (n + 1) ≤ d.length →
    (t2cData d).getD (6 * n + k) 0 = d.getD (9 * n + cIdx k) 0 := by
  intro n
  induction n with
  | zero =>
      intro d k hk hd
      obtain ⟨a0, a1, a2, a3, a4, a5, a6, a7, a8, tl, rfl⟩ := exists_cons9 (d := d) (by omega)
      simp only [t2cData]
      interval_cases k <;> norm_num [cIdx]
  | succ m ih =>
      intro d k hk hd
      obtain ⟨a0, a1, a2, a3, a4, a5, a6, a7, a8, tl, rfl⟩ := exists_cons9 (d := d) (by omega)
      simp only [t2cData]
      simp only [List.length_cons] at hd
      have h1 : 6 * (m + 1) + k = (6 * m + k) + 6 := by ring
      have h2 : 9 * (m + 1) + cIdx k = (9 * m + cIdx k) + 9 := by ring
      rw [h1, h2, getD_shift6, getD_shift9]
      exact ih tl k hk (by omega)

lemma c2tData_getD : ∀ (n : ℕ) (d : List ℚ) (i j : ℕ), i < 3 → j < 3 → 6 * (n + 1) ≤ d.length →
    (c2tData d).getD (9 * n + (3 * i + j)) 0 = d.getD (6 * n + tIdx i j) 0 := by
  intro n
  induction n with
  | zero =>
      intro d i j hi hj hd
      obtain ⟨a0, a1, a2, a3, a4, a5, tl, rfl⟩ := exists_cons6 (d := d) (by omega)
      simp only [c2tData]
      interval_cases i <;> interval_cases j <;> norm_num [tIdx]
  | succ m ih =>
      intro d i j hi hj hd
      obtain ⟨a0, a1, a2, a3, a4, a5, tl, rfl⟩ := exists_cons6 (d := d) (by omega)
      simp only [c2tData]
      simp only [List.length_cons] at hd
      have h1 : 9 * (m + 1) + (3 * i + j) = (9 * m + (3 * i + j)) + 9 := by ring
      have h2 : 6 * (m + 1) + tIdx i j = (6 * m + tIdx i j) + 6 := by ring
      rw [h1, h2, getD_shift9, getD_shift6]
      exact ih tl i j hi hj (by omega)

lemma e2tData_getD : ∀ (n : ℕ) (m : ℕ) (l1 l2 l3 v1 v2 v3 : List ℚ),
    l1.length = m → l2.length = m → l3.length = m →
    v1.length = 3 * m → v2.length = 3 * m → v3.length = 3 * m →
    n < m → ∀ i j, i < 3 → j < 3 →
    (e2tData l1 l2 l3 v1 v2 v3).getD (9 * n + (3 * i + j)) 0 =
      l1.getD n 0 * v1.getD (3 * n + j) 0 * v1.getD (3 * n + i) 0 +
      l2.getD n 0 * v2.getD (3 * n + j) 0 * v2.getD (3 * n + i) 0 +
      l3.getD n 0 * v3.getD (3 * n + j) 0 * v3.getD (3 * n + i) 0 := by
  intro n
  induction n with
  | zero =>
      intro m l1 l2 l3 v1 v2 v3 h1 h2 h3 h4 h5 h6 hn i j hi hj
      obtain ⟨a, l1, rfl⟩ := cons_of_length_pos (d := l1) (by omega)
      obtain ⟨b, l2, rfl⟩ := cons_of_length_pos (d := l2) (by omega)
      obtain ⟨c, l3, rfl⟩ := cons_of_length_pos (d := l3) (by omega)
      obtain ⟨x0, x1, x2, v1, rfl⟩ := exists_cons3 (d := v1) (by omega)
      obtain ⟨y0, y1, y2, v2, rfl⟩ := exists_cons3 (d := v2) (by omega)
      obtain ⟨z0, z1, z2, v3, rfl⟩ := exists_cons3 (d := v3) (by omega)
      simp only [e2tData]
      interval_cases i <;> interval_cases j <;> norm_num
  | succ p ih =>
      intro m l1 l2 l3 v1 v2 v3 h1 h2 h3 h4 h5 h6 hn i j hi hj
      obtain ⟨a, l1, rfl⟩ := cons_of_length_pos (d := l1) (by omega)
      obtain ⟨b, l2, rfl⟩ := cons_of_length_pos (d := l2) (by omega)
      obtain ⟨c, l3, rfl⟩ := cons_of_length_pos (d := l3) (by omega)
      obtain ⟨x0, x1, x2, v1, rfl⟩ := exists_cons3 (d := v1) (by omega)
      obtain ⟨y0, y1, y2, v2, rfl⟩ := exists_cons3 (d := v2) (by omega)
      obtain ⟨z0, z1, z2, v3, rfl⟩ := exists_cons3 (d := v3) (by omega)
      simp only [List.length_cons] at h1 h2 h3 h4 h5 h6
      simp only [e2tData, List.getD_cons_succ]
      have h9 : 9 * (p + 1) + (3 * i + j) = (9 * p + (3 * i + j)) + 9 := by ring
      have h3a : 3 * (p + 1) + j = (3 * p + j) + 3 := by ring
      have h3b : 3 * (p + 1) + i = (3 * p + i) + 3 := by ring
      rw [h9, h3a, h3b, getD_shift9, getD_shift3, getD_shift3, getD_shift3,
        getD_shift3, getD_shift3, getD_shift3]
      exact ih (m - 1) l1 l2 l3 v1 v2 v3 (by omega) (by omega) (by omega)
        (by omega) (by omega) (by omega) (by omega) i j hi hj

lemma chunkAt_zero (a0 a1 a2 a3 a4 a5 a6 a7 a8 : ℚ) (tl : List ℚ) :
    chunkAt (a0 :: a1 :: a2 :: a3 :: a4 :: a5 :: a6 :: a7 :: a8 :: tl) 0 =
      [a0, a1, a2, a3, a4, a5, a6, a7, a8] := rfl

lemma chunkAt_succ (a0 a1 a2 a3 a4 a5 a6 a7 a8 : ℚ) (tl : List ℚ) (n : ℕ) :
    chunkAt (a0 :: a1 :: a2 :: a3 :: a4 :: a5 :: a6 :: a7 :: a8 :: tl) (n + 1) =
      chunkAt tl n := by
  unfold chunkAt
  have h : 9 * (n + 1) = 9 * n + 9 := by ring
  rw [h, drop_shift9]

lemma t2eValsData_getD (eigh : Eigh) : ∀ (n : ℕ) (d : List ℚ) (k : ℕ), 9 * (n + 1) ≤ d.length →
    (t2eValsData eigh k d).getD n 0 = (eigh (chunkAt d n)).1.getD k 0 := by
  intro n
  induction n with
  | zero =>
      intro d k hd
      obtain ⟨a0, a1, a2, a3, a4, a5, a6, a7, a8, tl, rfl⟩ := exists_cons9 (d := d) (by omega)
      simp only [t2eValsData, chunkAt_zero, List.getD_cons_zero]
  | succ m ih =>
      intro d k hd
      obtain ⟨a0, a1, a2, a3, a4, a5, a6, a7, a8, tl, rfl⟩ := exists_cons9 (d := d) (by omega)
      simp only [List.length_cons] at hd
      simp only [t2eValsData, List.getD_cons_succ, chunkAt_succ]
      exact ih tl k (by omega)

lemma t2eVecsData_getD (eigh : Eigh) : ∀ (n : ℕ) (d : List ℚ) (k i : ℕ), i < 3 →
    9 * (n + 1) ≤ d.length →
    (t2eVecsData eigh k d).getD (3 * n + i) 0 = (eigh (chunkAt d n)).2.getD (3 * i + k) 0 := by
  intro n
  induction n with
  | zero =>
      intro d k i hi hd
      obtain ⟨a0, a1, a2, a3, a4, a5, a6, a7, a8, tl, rfl⟩ := exists_cons9 (d := d) (by omega)
      simp only [t2eVecsData, chunkAt_zero]
      interval_cases i <;> norm_num [Nat.add_comm]
  | succ m ih =>
      intro d k i hi hd
      obtain ⟨a0, a1, a2, a3, a4, a5, a6, a7, a8, tl, rfl⟩ := exists_cons9 (d := d) (by omega)
      simp only [List.length_cons] at hd
      simp only [t2eVecsData, chunkAt_succ]
      have h1 : 3 * (m + 1) + i = (3 * m + i) + 3 := by ring
      rw [h1, getD_shift3]
      exact ih tl k i hi (by omega)

lemma t2c_c2t_data : ∀ (m : ℕ) (d : List ℚ), d.length = 6 * m →
    t2cData (c2tData d) = d := by
  intro m
  induction m with
  | zero =>
      intro d hd
      have : d = [] := List.eq_nil_of_length_eq_zero (by omega)
      subst this; simp [c2tData, t2cData]
  | succ k ih =>
      intro d hd
      obtain ⟨a0, a1, a2, a3, a4, a5, tl, rfl⟩ := exists_cons6 (d := d) (by omega)
      simp only [List.length_cons] at hd
      simp only [c2tData, t2cData]
      rw [ih tl (by omega)]

lemma tIdx_lt (i j : ℕ) (hi : i < 3) (hj : j < 3) : tIdx i j < 6 := by
  interval_cases i <;> interval_cases j <;> simp [tIdx]

lemma cIdx_tIdx (i j : ℕ) (hi : i < 3) (hj : j < 3) :
    cIdx (tIdx i j) = 3 * min i j + max i j := by
  interval_cases i <;> interval_cases j <;> simp [tIdx, cIdx]

lemma c2t_t2c_getD (m n : ℕ) (d : List ℚ) (i j : ℕ) (hi : i < 3) (hj : j < 3)
    (hd : d.length = 9 * m) (hn : n < m) :
    (c2tData (t2cData d)).getD (9 * n + (3 * i + j)) 0 =
      d.getD (9 * n + (3 * min i j + max i j)) 0 := by
  have hlen := t2cData_length m d hd
  rw [c2tData_getD n (t2cData d) i j hi hj (by omega),
    t2cData_getD n d (tIdx i j) (tIdx_lt i j hi hj) (by omega), cIdx_tIdx i j hi hj]

lemma c2t_t2c_length (m : ℕ) (d : List ℚ) (hd : d.length = 9 * m) :
    (c2tData (t2cData d)).length = 9 * m :=
  c2tData_length m (t2cData d) (t2cData_length m d hd)

lemma c2t_t2c_data (m : ℕ) (d : List ℚ) (hd : d.length = 9 * m)
    (hsym : ∀ n, n < m → ∀ i, i < 3 → ∀ j, j < 3 →
      d.getD (9 * n + (3 * i + j)) 0 = d.getD (9 * n + (3 * j + i)) 0) :
    c2tData (t2cData d) = d := by
  have hlen := c2t_t2c_length m d hd
  apply List.ext_getElem (by omega)
  intro idx h1 h2
  have hidx : idx < 9 * m := by omega
  obtain ⟨n, i, j, hn, hi, hj, rfl⟩ :
      ∃ n i j, n < m ∧ i < 3 ∧ j < 3 ∧ idx = 9 * n + (3 * i + j) :=
    ⟨idx / 9, idx % 9 / 3, idx % 3, by omega, by omega, by omega, by omega⟩
  rw [← List.getD_eq_getElem _ 0 h1, ← List.getD_eq_getElem _ 0 h2,
    c2t_t2c_getD m n d i j hi hj hd hn]
  rcases le_or_lt i j with hle | hlt
  · rw [Nat.min_eq_left hle, Nat.max_eq_right hle]
  · rw [Nat.min_eq_right (by omega), Nat.max_eq_left (by omega)]
    exact hsym n hn j hj i hi

lemma shape_split {s : List ℕ} (h : lastTwoAxes s = [3, 3]) :
    s = leadShape s ++ [3, 3] := by
  unfold lastTwoAxes at h
  unfold leadShape
  conv_lhs => rw [← List.take_append_drop (s.length - 2) s]
  rw [h]

lemma shape_prod_of_lastTwo {s : List ℕ} (h : lastTwoAxes s = [3, 3]) :
    s.prod = (leadShape s).prod * 9 := by
  conv_lhs => rw [shape_split h]
  simp [List.prod_append]

lemma lastTwoAxes_append (l : List ℕ) : lastTwoAxes (l ++ [3, 3]) = [3, 3] := by
  unfold lastTwoAxes
  have h : (l ++ [3, 3]).length - 2 = l.length := by simp
  rw [h, List.drop_left]

lemma leadShape_append (l : List ℕ) : leadShape (l ++ [3, 3]) = l := by
  unfold leadShape
  have h : (l ++ [3, 3]).length - 2 = l.length := by simp
  rw [h, List.take_left]

lemma getLast6_split {s : List ℕ} (h : s.getLast? = some 6) :
    s = s.dropLast ++ [6] := by
  rcases s.eq_nil_or_concat with rfl | ⟨l', a, rfl⟩
  · simp at h
  · simp_all

lemma shape_prod_of_getLast6 {s : List ℕ} (h : s.getLast? = some 6) :
    s.prod = s.dropLast.prod * 6 := by
  conv_lhs => rw [getLast6_split h]
  simp [List.prod_append]

lemma matEntry_eq_getD (A : NDArray) (n i j : ℕ) :
    A.matEntry n i j = A.data.getD (9 * n + (3 * i + j)) 0 := by
  unfold NDArray.matEntry; congr 1; ring

lemma mk_data (s : List ℕ) (d : List ℚ) : (⟨s, d⟩ : NDArray).data = d := rfl

lemma mk_shape (s : List ℕ) (d : List ℚ) : (⟨s, d⟩ : NDArray).shape = s := rfl

lemma isSym_data {M : NDArray} (h : M.IsSym) (m : ℕ) (hm : M.data.length = 9 * m) :
    ∀ n, n < m → ∀ i, i < 3 → ∀ j, j < 3 →
      M.data.getD (9 * n + (3 * i + j)) 0 = M.data.getD (9 * n + (3 * j + i)) 0 := by
  intro n hn i hi j hj
  rw [← matEntry_eq_getD, ← matEntry_eq_getD]
  exact h n (by unfold NDArray.numMats; omega) i hi j hj

/-- Evaluating the composite `componentsToTensor(tensorToComponents(M))` on a
shape-valid input. -/
lemma t2c_then_c2t (M : NDArray) (hsh : lastTwoAxes M.shape = [3, 3]) :
    (tensorToComponents M).bind componentsToTensor =
      .ok ⟨leadShape M.shape ++ [3, 3], c2tData (t2cData M.data)⟩ := by
  unfold tensorToComponents
  rw [if_pos hsh]
  show componentsToTensor ⟨leadShape M.shape ++ [6], t2cData M.data⟩ = _
  unfold componentsToTensor
  rw [if_pos (by simp)]
  rw [List.dropLast_concat]

/-- C2: for every array `M` of shape `(*S, 3, 3)` that is symmetric in its last
two axes, `componentsToTensor(tensorToComponents(M))` equals `M` exactly. -/
theorem claim_C2 (M : NDArray) (hWF : M.WF) (hsh : lastTwoAxes M.shape = [3, 3])
    (hsym : M.IsSym) :
    (tensorToComponents M).bind componentsToTensor = .ok M := by
  rw [t2c_then_c2t M hsh]
  have hd : M.data.length = 9 * (leadShape M.shape).prod := by
    have := shape_prod_of_lastTwo hsh
    unfold NDArray.WF at hWF
    omega
  have hdat : c2tData (t2cData M.data) = M.data :=
    c2t_t2c_data _ _ hd (isSym_data hsym _ hd)
  have hs : leadShape M.shape ++ [3, 3] = M.shape := (shape_split hsh).symm
  rw [show (⟨leadShape M.shape ++ [3, 3], c2tData (t2cData M.data)⟩ : NDArray) = M by
    rw [hs, hdat]]

/-- Witness for C2 at a concrete symmetric 3×3 matrix. -/
theorem claim_C2_witness :
    (⟨[3, 3], [1, 2, 3, 2, 4, 5, 3, 5, 6]⟩ : NDArray).WF ∧
    lastTwoAxes (⟨[3, 3], [1, 2, 3, 2, 4, 5, 3, 5, 6]⟩ : NDArray).shape = [3, 3] ∧
    (⟨[3, 3], [1, 2, 3, 2, 4, 5, 3, 5, 6]⟩ : NDArray).IsSym ∧
    (tensorToComponents ⟨[3, 3], [1, 2, 3, 2, 4, 5, 3, 5, 6]⟩).bind componentsToTensor =
      .ok ⟨[3, 3], [1, 2, 3, 2, 4, 5, 3, 5, 6]⟩ :=
  ⟨by decide, by decide, by decide, claim_C2 _ (by decide) (by decide) (by decide)⟩

/-- C5: for every array `C` of shape `(*S, 6)`,
`tensorToComponents(componentsToTensor(C))` equals `C` exactly. -/
theorem claim_C5 (C : NDArray) (hWF : C.WF) (hsh : C.shape.getLast? = some 6) :
    (componentsToTensor C).bind tensorToComponents = .ok C := by
  unfold componentsToTensor
  rw [if_pos hsh]
  show tensorToComponents ⟨C.shape.dropLast ++ [3, 3], c2tData C.data⟩ = _
  unfold tensorToComponents
  rw [if_pos (lastTwoAxes_append _)]
  have hm : C.data.length = 6 * C.shape.dropLast.prod := by
    have := shape_prod_of_getLast6 hsh
    unfold NDArray.WF at hWF
    omega
  have hdat : t2cData (c2tData C.data) = C.data := t2c_c2t_data _ _ hm
  have hs : leadShape (C.shape.dropLast ++ [3, 3]) ++ [6] = C.shape := by
    rw [leadShape_append]
    exact (getLast6_split hsh).symm
  rw [show (⟨leadShape (C.shape.dropLast ++ [3, 3]) ++ [6],
      t2cData (c2tData C.data)⟩ : NDArray) = C by rw [hs, hdat]]

/-- Witness for C5 at a concrete `(2, 6)` components field. -/
theorem claim_C5_witness :
    (⟨[2, 6], [1, 2, 3, 4, 5, 6, 7, 8, 9, 10, 11, 12]⟩ : NDArray).WF ∧
    (⟨[2, 6], [1, 2, 3, 4, 5, 6, 7, 8, 9, 10, 11, 12]⟩ : NDArray).shape.getLast? = some 6 ∧
    (componentsToTensor ⟨[2, 6], [1, 2, 3, 4, 5, 6, 7, 8, 9, 10, 11, 12]⟩).bind
        tensorToComponents =
      .ok ⟨[2, 6], [1, 2, 3, 4, 5, 6, 7, 8, 9, 10, 11, 12]⟩ :=
  ⟨by decide, by decide, claim_C5 _ (by decide) (by decide)⟩

/-- C10: for every `(*S, 3, 3)` array `M`, symmetric or not, the composite
`componentsToTensor(tensorToComponents(M))` has entry `[..., i, j]` equal to
`M[..., min(i,j), max(i,j)]`; the composite is always symmetric, and the exact
round-trip identity holds precisely on symmetric inputs. -/
theorem claim_C10 (M : NDArray) (hWF : M.WF) (hsh : lastTwoAxes M.shape = [3, 3]) :
    ∃ T : NDArray, (tensorToComponents M).bind componentsToTensor = .ok T ∧
      T.shape = M.shape ∧
      (∀ n, n < M.numMats → ∀ i, i < 3 → ∀ j, j < 3 →
        T.matEntry n i j = M.matEntry n (min i j) (max i j)) ∧
      T.IsSym ∧
      (T = M ↔ M.IsSym) := by
  have hd : M.data.length = 9 * (leadShape M.shape).prod := by
    have := shape_prod_of_lastTwo hsh
    unfold NDArray.WF at hWF
    omega
  have hnum : M.numMats = (leadShape M.shape).prod := by
    unfold NDArray.numMats; omega
  refine ⟨⟨leadShape M.shape ++ [3, 3], c2tData (t2cData M.data)⟩,
    t2c_then_c2t M hsh, (shape_split hsh).symm, ?_, ?_, ?_⟩
  · intro n hn i hi j hj
    rw [matEntry_eq_getD, matEntry_eq_getD]
    simp only [mk_data]
    rw [c2t_t2c_getD _ n M.data i j hi hj hd (by omega)]
  · intro n hn i hi j hj
    unfold NDArray.numMats at hn
    simp only [mk_data, c2t_t2c_length _ M.data hd] at hn
    rw [matEntry_eq_getD, matEntry_eq_getD]
    simp only [mk_data]
    rw [c2t_t2c_getD _ n M.data i j hi hj hd (by omega),
      c2t_t2c_getD _ n M.data j i hj hi hd (by omega),
      Nat.min_comm j i, Nat.max_comm j i]
  · constructor
    · intro hT
      intro n hn i hi j hj
      have e1 : M.matEntry n i j = M.matEntry n (min i j) (max i j) := by
        conv_lhs => rw [← hT]
        rw [matEntry_eq_getD, matEntry_eq_getD]
        simp only [mk_data]
        rw [c2t_t2c_getD _ n M.data i j hi hj hd (by omega)]
      have e2 : M.matEntry n j i = M.matEntry n (min i j) (max i j) := by
        conv_lhs => rw [← hT]
        rw [matEntry_eq_getD, matEntry_eq_getD]
        simp only [mk_data]
        rw [c2t_t2c_getD _ n M.data j i hj hi hd (by omega),
          Nat.min_comm j i, Nat.max_comm j i]
      rw [e1, e2]
    · intro hsym
      have hdat : c2tData (t2cData M.data) = M.data :=
        c2t_t2c_data _ _ hd (isSym_data hsym _ hd)
      rw [hdat, ← shape_split hsh]

/-- C3: for eigenvector fields of shape `(*S, 3)` and eigenvalue fields of
shape `S`, `eigendecompositionToTensor` returns the `(*S, 3, 3)` array whose
value at every leading index is `L1·V1V1ᵗ + L2·V2V2ᵗ + L3·V3V3ᵗ`, symmetric in
its last two axes. -/
theorem claim_C3 (V1 V2 V3 L1 L2 L3 : NDArray) (S : List ℕ)
    (hL1 : L1.shape = S) (hL2 : L2.shape = S) (hL3 : L3.shape = S)
    (hV1 : V1.shape = S ++ [3]) (hV2 : V2.shape = S ++ [3]) (hV3 : V3.shape = S ++ [3])
    (wL1 : L1.WF) (wL2 : L2.WF) (wL3 : L3.WF) (wV1 : V1.WF) (wV2 : V2.WF) (wV3 : V3.WF) :
    ∃ T : NDArray, eigendecompositionToTensor V1 V2 V3 L1 L2 L3 = .ok T ∧
      T.shape = S ++ [3, 3] ∧
      (∀ n, n < S.prod → ∀ i, i < 3 → ∀ j, j < 3 →
        T.matEntry n i j =
          L1.scalEntry n * V1.vecEntry n i * V1.vecEntry n j +
          L2.scalEntry n * V2.vecEntry n i * V2.vecEntry n j +
          L3.scalEntry n * V3.vecEntry n i * V3.vecEntry n j) ∧
      T.IsSym := by
  unfold NDArray.WF at wL1 wL2 wL3 wV1 wV2 wV3
  rw [hL1] at wL1
  rw [hL2] at wL2
  rw [hL3] at wL3
  rw [hV1, List.prod_append] at wV1
  rw [hV2, List.prod_append] at wV2
  rw [hV3, List.prod_append] at wV3
  simp only [List.prod_cons, List.prod_nil] at wV1 wV2 wV3
  unfold eigendecompositionToTensor
  rw [if_pos ⟨hL2.trans hL1.symm, hL3.trans hL1.symm⟩,
    if_pos ⟨by rw [hV1, hL3], by rw [hV2, hL3], by rw [hV3, hL3]⟩]
  refine ⟨_, rfl, by rw [mk_shape, hL1], ?_, ?_⟩
  · intro n hn i hi j hj
    rw [matEntry_eq_getD]
    simp only [mk_data]
    rw [e2tData_getD n S.prod L1.data L2.data L3.data V1.data V2.data V3.data
      wL1 wL2 wL3 (by omega) (by omega) (by omega) hn i j hi hj]
    unfold NDArray.scalEntry NDArray.vecEntry
    ring
  · intro n hn i hi j hj
    unfold NDArray.numMats at hn
    simp only [mk_data] at hn
    rw [e2tData_length S.prod L1.data L2.data L3.data V1.data V2.data V3.data
      wL1 wL2 wL3 (by omega) (by omega) (by omega)] at hn
    rw [matEntry_eq_getD, matEntry_eq_getD]
    simp only [mk_data]
    rw [e2tData_getD n S.prod L1.data L2.data L3.data V1.data V2.data V3.data
      wL1 wL2 wL3 (by omega) (by omega) (by omega) (by omega) i j hi hj,
      e2tData_getD n S.prod L1.data L2.data L3.data V1.data V2.data V3.data
      wL1 wL2 wL3 (by omega) (by omega) (by omega) (by omega) j i hj hi]
    ring

/-- Witness for C3 at a concrete single-voxel eigen-system. -/
theorem claim_C3_witness :
    (∃ T : NDArray,
      eigendecompositionToTensor ⟨[3], [1, 0, 0]⟩ ⟨[3], [0, 1, 0]⟩ ⟨[3], [0, 0, 1]⟩
          ⟨[], [5]⟩ ⟨[], [3]⟩ ⟨[], [2]⟩ = .ok T ∧
      T.shape = [] ++ [3, 3] ∧
      (∀ n, n < List.prod [] → ∀ i, i < 3 → ∀ j, j < 3 →
        T.matEntry n i j =
          (⟨[], [5]⟩ : NDArray).scalEntry n * (⟨[3], [1, 0, 0]⟩ : NDArray).vecEntry n i *
              (⟨[3], [1, 0, 0]⟩ : NDArray).vecEntry n j +
          (⟨[], [3]⟩ : NDArray).scalEntry n * (⟨[3], [0, 1, 0]⟩ : NDArray).vecEntry n i *
              (⟨[3], [0, 1, 0]⟩ : NDArray).vecEntry n j +
          (⟨[], [2]⟩ : NDArray).scalEntry n * (⟨[3], [0, 0, 1]⟩ : NDArray).vecEntry n i *
              (⟨[3], [0, 0, 1]⟩ : NDArray).vecEntry n j) ∧
      T.IsSym) :=
  claim_C3 ⟨[3], [1, 0, 0]⟩ ⟨[3], [0, 1, 0]⟩ ⟨[3], [0, 0, 1]⟩
    ⟨[], [5]⟩ ⟨[], [3]⟩ ⟨[], [2]⟩ [] rfl rfl rfl rfl rfl rfl
    (by decide) (by decide) (by decide) (by decide) (by decide) (by decide)

/-- C1: on every `(*S, 3, 3)` input, `tensorToEigendecomposition` takes solver
index 2 as L1, index 1 as L2, index 0 as L3, selects eigenvector columns 2, 1,
0 as V1, V2, V3, and therefore (the solver returning ascending eigenvalues)
satisfies `L1 ≥ L2 ≥ L3` element-wise at every leading index. -/
theorem claim_C1 (eigh : Eigh) (M : NDArray) (hWF : M.WF)
    (hsh : lastTwoAxes M.shape = [3, 3]) (hasc : EighAscending eigh) :
    ∃ V1 V2 V3 L1 L2 L3 : NDArray,
      tensorToEigendecomposition eigh M = .ok (V1, V2, V3, L1, L2, L3) ∧
      L1.shape = leadShape M.shape ∧ L2.shape = leadShape M.shape ∧
      L3.shape = leadShape M.shape ∧
      V1.shape = leadShape M.shape ++ [3] ∧ V2.shape = leadShape M.shape ++ [3] ∧
      V3.shape = leadShape M.shape ++ [3] ∧
      (∀ n, n < (leadShape M.shape).prod →
        L1.scalEntry n = (eigh (chunkAt M.data n)).1.getD 2 0 ∧
        L2.scalEntry n = (eigh (chunkAt M.data n)).1.getD 1 0 ∧
        L3.scalEntry n = (eigh (chunkAt M.data n)).1.getD 0 0 ∧
        (∀ i, i < 3 →
          V1.vecEntry n i = (eigh (chunkAt M.data n)).2.getD (3 * i + 2) 0 ∧
          V2.vecEntry n i = (eigh (chunkAt M.data n)).2.getD (3 * i + 1) 0 ∧
          V3.vecEntry n i = (eigh (chunkAt M.data n)).2.getD (3 * i) 0) ∧
        L3.scalEntry n ≤ L2.scalEntry n ∧ L2.scalEntry n ≤ L1.scalEntry n) := by
  have hd : M.data.length = 9 * (leadShape M.shape).prod := by
    have := shape_prod_of_lastTwo hsh
    unfold NDArray.WF at hWF
    omega
  unfold tensorToEigendecomposition
  rw [if_pos hsh]
  refine ⟨_, _, _, _, _, _, rfl, rfl, rfl, rfl, rfl, rfl, rfl, ?_⟩
  intro n hn
  have hb : 9 * (n + 1) ≤ M.data.length := by omega
  have hv1 := t2eValsData_getD eigh n M.data 2 hb
  have hv2 := t2eValsData_getD eigh n M.data 1 hb
  have hv3 := t2eValsData_getD eigh n M.data 0 hb
  refine ⟨?_, ?_, ?_, ?_, ?_, ?_⟩
  · unfold NDArray.scalEntry; simp only [mk_data]; exact hv1
  · unfold NDArray.scalEntry; simp only [mk_data]; exact hv2
  · unfold NDArray.scalEntry; simp only [mk_data]; exact hv3
  · intro i hi
    refine ⟨?_, ?_, ?_⟩
    · unfold NDArray.vecEntry
      simp only [mk_data]
      exact t2eVecsData_getD eigh n M.data 2 i hi hb
    · unfold NDArray.vecEntry
      simp only [mk_data]
      exact t2eVecsData_getD eigh n M.data 1 i hi hb
    · unfold NDArray.vecEntry
      simp only [mk_data]
      have := t2eVecsData_getD eigh n M.data 0 i hi hb
      simpa using this
  · unfold NDArray.scalEntry
    simp only [mk_data]
    rw [hv3, hv2]
    exact (hasc (chunkAt M.data n)).1
  · unfold NDArray.scalEntry
    simp only [mk_data]
    rw [hv2, hv1]
    exact (hasc (chunkAt M.data n)).2

/-- Witness for C1: a constant ascending solver applied to one diagonal
matrix. -/
theorem claim_C1_witness :
    EighAscending (fun _ => ([0, 1, 2], [1, 0, 0, 0, 1, 0, 0, 0, 1])) ∧
    (⟨[3, 3], [5, 0, 0, 0, 7, 0, 0, 0, 11]⟩ : NDArray).WF ∧
    lastTwoAxes (⟨[3, 3], [5, 0, 0, 0, 7, 0, 0, 0, 11]⟩ : NDArray).shape = [3, 3] ∧
    (∃ V1 V2 V3 L1 L2 L3 : NDArray,
      tensorToEigendecomposition (fun _ => ([0, 1, 2], [1, 0, 0, 0, 1, 0, 0, 0, 1]))
          ⟨[3, 3], [5, 0, 0, 0, 7, 0, 0, 0, 11]⟩ = .ok (V1, V2, V3, L1, L2, L3) ∧
      L1.shape = leadShape (⟨[3, 3], [5, 0, 0, 0, 7, 0, 0, 0, 11]⟩ : NDArray).shape ∧
      L2.shape = leadShape (⟨[3, 3], [5, 0, 0, 0, 7, 0, 0, 0, 11]⟩ : NDArray).shape ∧
      L3.shape = leadShape (⟨[3, 3], [5, 0, 0, 0, 7, 0, 0, 0, 11]⟩ : NDArray).shape ∧
      V1.shape = leadShape (⟨[3, 3], [5, 0, 0, 0, 7, 0, 0, 0, 11]⟩ : NDArray).shape ++ [3] ∧
      V2.shape = leadShape (⟨[3, 3], [5, 0, 0, 0, 7, 0, 0, 0, 11]⟩ : NDArray).shape ++ [3] ∧
      V3.shape = leadShape (⟨[3, 3], [5, 0, 0, 0, 7, 0, 0, 0, 11]⟩ : NDArray).shape ++ [3] ∧
      (∀ n, n < (leadShape (⟨[3, 3], [5, 0, 0, 0, 7, 0, 0, 0, 11]⟩ : NDArray).shape).prod →
        L1.scalEntry n =
          ((fun _ => (([0, 1, 2] : List ℚ), ([1, 0, 0, 0, 1, 0, 0, 0, 1] : List ℚ)))
            (chunkAt (⟨[3, 3], [5, 0, 0, 0, 7, 0, 0, 0, 11]⟩ : NDArray).data n)).1.getD 2 0 ∧
        L2.scalEntry n =
          ((fun _ => (([0, 1, 2] : List ℚ), ([1, 0, 0, 0, 1, 0, 0, 0, 1] : List ℚ)))
            (chunkAt (⟨[3, 3], [5, 0, 0, 0, 7, 0, 0, 0, 11]⟩ : NDArray).data n)).1.getD 1 0 ∧
        L3.scalEntry n =
          ((fun _ => (([0, 1, 2] : List ℚ), ([1, 0, 0, 0, 1, 0, 0, 0, 1] : List ℚ)))
            (chunkAt (⟨[3, 3], [5, 0, 0, 0, 7, 0, 0, 0, 11]⟩ : NDArray).data n)).1.getD 0 0 ∧
        (∀ i, i < 3 →
          V1.vecEntry n i =
            ((fun _ => (([0, 1, 2] : List ℚ), ([1, 0, 0, 0, 1, 0, 0, 0, 1] : List ℚ)))
              (chunkAt (⟨[3, 3], [5, 0, 0, 0, 7, 0, 0, 0, 11]⟩ : NDArray).data n)).2.getD
              (3 * i + 2) 0 ∧
          V2.vecEntry n i =
            ((fun _ => (([0, 1, 2] : List ℚ), ([1, 0, 0, 0, 1, 0, 0, 0, 1] : List ℚ)))
              (chunkAt (⟨[3, 3], [5, 0, 0, 0, 7, 0, 0, 0, 11]⟩ : NDArray).data n)).2.getD
              (3 * i + 1) 0 ∧
          V3.vecEntry n i =
            ((fun _ => (([0, 1, 2] : List ℚ), ([1, 0, 0, 0, 1, 0, 0, 0, 1] : List ℚ)))
              (chunkAt (⟨[3, 3], [5, 0, 0, 0, 7, 0, 0, 0, 11]⟩ : NDArray).data n)).2.getD
              (3 * i) 0) ∧
        L3.scalEntry n ≤ L2.scalEntry n ∧ L2.scalEntry n ≤ L1.scalEntry n)) := by
  have hasc : EighAscending (fun _ => ([0, 1, 2], [1, 0, 0, 0, 1, 0, 0, 0, 1])) := by
    intro c
    exact ⟨(by norm_num : (0 : ℚ) ≤ 1), (by norm_num : (1 : ℚ) ≤ 2)⟩
  exact ⟨hasc, by decide, by decide,
    claim_C1 (fun _ => ([0, 1, 2], [1, 0, 0, 0, 1, 0, 0, 0, 1]))
      ⟨[3, 3], [5, 0, 0, 0, 7, 0, 0, 0, 11]⟩ (by decide) (by decide) hasc⟩

/-- Witness for C10 at a concrete non-symmetric 3×3 matrix. -/
theorem claim_C10_witness :
    (⟨[3, 3], [1, 2, 3, 4, 5, 6, 7, 8, 9]⟩ : NDArray).WF ∧
    lastTwoAxes (⟨[3, 3], [1, 2, 3, 4, 5, 6, 7, 8, 9]⟩ : NDArray).shape = [3, 3] ∧
    (∃ T : NDArray,
      (tensorToComponents ⟨[3, 3], [1, 2, 3, 4, 5, 6, 7, 8, 9]⟩).bind componentsToTensor =
        .ok T ∧
      T.shape = (⟨[3, 3], [1, 2, 3, 4, 5, 6, 7, 8, 9]⟩ : NDArray).shape ∧
      (∀ n, n < (⟨[3, 3], [1, 2, 3, 4, 5, 6, 7, 8, 9]⟩ : NDArray).numMats →
        ∀ i, i < 3 → ∀ j, j < 3 →
        T.matEntry n i j =
          (⟨[3, 3], [1, 2, 3, 4, 5, 6, 7, 8, 9]⟩ : NDArray).matEntry n (min i j) (max i j)) ∧
      T.IsSym ∧
      (T = ⟨[3, 3], [1, 2, 3, 4, 5, 6, 7, 8, 9]⟩ ↔
        (⟨[3, 3], [1, 2, 3, 4, 5, 6, 7, 8, 9]⟩ : NDArray).IsSym)) :=
  ⟨by decide, by decide, claim_C10 _ (by decide) (by decide)⟩

/-- C6: every conversion function validates its input shapes and signals every
violation with the shape-mismatch error kind: `tensorToComponents` whenever the
last two axes are not `(3, 3)`, `componentsToTensor` whenever it has a last
axis and that axis is not 6 (a rank-0 input fails in the Python source at
`components.shape[-1]` itself, before the shape check, so it is excluded), and
`eigendecompositionToTensor` whenever the eigenvalue shapes disagree or (the
eigenvalue shapes agreeing) some eigenvector shape is not the eigenvalue shape
plus `(3,)`. -/
theorem claim_C6 :
    (∀ M : NDArray, lastTwoAxes M.shape ≠ [3, 3] →
      tensorToComponents M = .error (.shapeMismatch "Expected 3x3 diffusion tensors")) ∧
    (∀ C : NDArray, C.shape ≠ [] → C.shape.getLast? ≠ some 6 →
      componentsToTensor C =
        .error (.shapeMismatch "Expected 6 unique components of diffusion tensor")) ∧
    (∀ V1 V2 V3 L1 L2 L3 : NDArray, L2.shape ≠ L1.shape ∨ L3.shape ≠ L1.shape →
      eigendecompositionToTensor V1 V2 V3 L1 L2 L3 =
        .error (.shapeMismatch "Not all eigenvalues have the same shape")) ∧
    (∀ V1 V2 V3 L1 L2 L3 : NDArray, L2.shape = L1.shape → L3.shape = L1.shape →
      V1.shape ≠ L1.shape ++ [3] ∨ V2.shape ≠ L1.shape ++ [3] ∨ V3.shape ≠ L1.shape ++ [3] →
      eigendecompositionToTensor V1 V2 V3 L1 L2 L3 =
        .error
          (.shapeMismatch "Not all eigenvectors have the same shape as the eigenvalues")) := by
  refine ⟨?_, ?_, ?_, ?_⟩
  · intro M h
    unfold tensorToComponents
    rw [if_neg h]
  · intro C _ h
    unfold componentsToTensor
    rw [if_neg h]
  · intro V1 V2 V3 L1 L2 L3 h
    unfold eigendecompositionToTensor
    rw [if_neg (by tauto)]
  · intro V1 V2 V3 L1 L2 L3 h2 h3 h
    unfold eigendecompositionToTensor
    rw [if_pos ⟨h2, h3⟩, if_neg (by rw [h3]; tauto)]

/-- Witness for C6 at the concrete violations named by the specification: a
`(2, 2)` matrix field, a last axis of 5, and `V1.shape = (10, 3)` against
`L1.shape = (5,)`. -/
theorem claim_C6_witness :
    (lastTwoAxes (⟨[2, 2], [1, 2, 3, 4]⟩ : NDArray).shape ≠ [3, 3] ∧
      tensorToComponents ⟨[2, 2], [1, 2, 3, 4]⟩ =
        .error (.shapeMismatch "Expected 3x3 diffusion tensors")) ∧
    ((⟨[5], [1, 2, 3, 4, 5]⟩ : NDArray).shape ≠ [] ∧
      (⟨[5], [1, 2, 3, 4, 5]⟩ : NDArray).shape.getLast? ≠ some 6 ∧
      componentsToTensor ⟨[5], [1, 2, 3, 4, 5]⟩ =
        .error (.shapeMismatch "Expected 6 unique components of diffusion tensor")) ∧
    ((⟨[10, 3], []⟩ : NDArray).shape ≠ (⟨[5], []⟩ : NDArray).shape ++ [3] ∧
      eigendecompositionToTensor ⟨[10, 3], []⟩ ⟨[5, 3], []⟩ ⟨[5, 3], []⟩
          ⟨[5], []⟩ ⟨[5], []⟩ ⟨[5], []⟩ =
        .error
          (.shapeMismatch "Not all eigenvectors have the same shape as the eigenvalues")) :=
  ⟨⟨by decide, claim_C6.1 _ (by decide)⟩,
   ⟨by decide, by decide, claim_C6.2.1 _ (by decide) (by decide)⟩,
   ⟨by decide, claim_C6.2.2.2 _ _ _ _ _ _ rfl rfl (Or.inl (by decide))⟩⟩

/-- C9: the module's failures fall into exactly two kinds: every error a
conversion function returns is the shape-mismatch kind, and `DTIFitTensor`
construction fails precisely when `getDTIFitDataPrefix` finds no prefix, with
the distinct not-a-dtifit-directory kind (prefix discovery itself returns
`none` rather than failing).  The `componentsToTensor` clause assumes a
nonempty shape: on a rank-0 input the Python source fails before its shape
check (`shape[-1]` raises IndexError), outside the documented domain. -/
theorem claim_C9 :
    (∀ M : NDArray, ∀ e, tensorToComponents M = .error e → ∃ s, e = .shapeMismatch s) ∧
    (∀ C : NDArray, ∀ e, C.shape ≠ [] → componentsToTensor C = .error e →
      ∃ s, e = .shapeMismatch s) ∧
    (∀ V1 V2 V3 L1 L2 L3 : NDArray, ∀ e,
      eigendecompositionToTensor V1 V2 V3 L1 L2 L3 = .error e → ∃ s, e = .shapeMismatch s) ∧
    (∀ eigh : Eigh, ∀ M : NDArray, ∀ e,
      tensorToEigendecomposition eigh M = .error e → ∃ s, e = .shapeMismatch s) ∧
    (∀ lLI : String → Bool, ∀ entries : List String,
      (∃ e, DTIFitTensor.init lLI entries = .error e) ↔
        getDTIFitDataPrefix lLI entries = none) ∧
    (∀ lLI : String → Bool, ∀ entries : List String, ∀ e,
      DTIFitTensor.init lLI entries = .error e →
        e = .notADTIFitDir "does not look like a dtifit output directory!") := by
  refine ⟨?_, ?_, ?_, ?_, ?_, ?_⟩
  · intro M e h
    unfold tensorToComponents at h
    by_cases hc : lastTwoAxes M.shape = [3, 3]
    · rw [if_pos hc] at h; cases h
    · rw [if_neg hc] at h
      exact ⟨_, (Except.error.injEq .. ).mp h |>.symm⟩
  · intro C e _ h
    unfold componentsToTensor at h
    by_cases hc : C.shape.getLast? = some 6
    · rw [if_pos hc] at h; cases h
    · rw [if_neg hc] at h
      exact ⟨_, (Except.error.injEq .. ).mp h |>.symm⟩
  · intro V1 V2 V3 L1 L2 L3 e h
    unfold eigendecompositionToTensor at h
    by_cases hc : L2.shape = L1.shape ∧ L3.shape = L1.shape
    · rw [if_pos hc] at h
      by_cases hv : V1.shape = L3.shape ++ [3] ∧ V2.shape = L3.shape ++ [3] ∧
          V3.shape = L3.shape ++ [3]
      · rw [if_pos hv] at h; cases h
      · rw [if_neg hv] at h
        exact ⟨_, (Except.error.injEq .. ).mp h |>.symm⟩
    · rw [if_neg hc] at h
      exact ⟨_, (Except.error.injEq .. ).mp h |>.symm⟩
  · intro eigh M e h
    unfold tensorToEigendecomposition at h
    by_cases hc : lastTwoAxes M.shape = [3, 3]
    · rw [if_pos hc] at h; cases h
    · rw [if_neg hc] at h
      exact ⟨_, (Except.error.injEq .. ).mp h |>.symm⟩
  · intro lLI entries
    unfold DTIFitTensor.init
    constructor
    · rintro ⟨e, he⟩
      cases hp : getDTIFitDataPrefix lLI entries with
      | none => rfl
      | some p => rw [hp] at he; cases he
    · intro hp
      rw [hp]
      exact ⟨_, rfl⟩
  · intro lLI entries e h
    unfold DTIFitTensor.init at h
    cases hp : getDTIFitDataPrefix lLI entries with
    | none => rw [hp] at h; exact ((Except.error.injEq .. ).mp h).symm
    | some p => rw [hp] at h; cases h

/-- Witness for C9: concrete instances of each error boundary. -/
theorem claim_C9_witness :
    (∃ s, (FslError.shapeMismatch "Expected 3x3 diffusion tensors") = .shapeMismatch s) ∧
    (∃ s, (FslError.shapeMismatch "Expected 6 unique components of diffusion tensor") =
      .shapeMismatch s) ∧
    (∃ e, DTIFitTensor.init (fun _ => true) [] = .error e) ∧
    (FslError.notADTIFitDir "does not look like a dtifit output directory!" =
      .notADTIFitDir "does not look like a dtifit output directory!") := by
  refine ⟨?_, ?_, ?_, ?_⟩
  · exact claim_C9.1 ⟨[2, 2], [1, 2, 3, 4]⟩ _ rfl
  · exact claim_C9.2.1 ⟨[5], [1, 2, 3, 4, 5]⟩ _ (by decide) rfl
  · exact (claim_C9.2.2.2.2.1 (fun _ => true) []).mpr rfl
  · exact claim_C9.2.2.2.2.2 (fun _ => true) []
      (.notADTIFitDir "does not look like a dtifit output directory!") rfl

lemma groupFind_addFile (gs : List (String × List String)) (p f q : String) :
    groupFind (addFile gs p f) q =
      if q = p then groupFind gs p ++ [f] else groupFind gs q := by
  induction gs with
  | nil =>
      by_cases h : q = p
      · subst h; simp [addFile, groupFind]
      · have h' : ¬p = q := fun hh => h hh.symm
        simp [addFile, groupFind, h, h']
  | cons g rest ih =>
      obtain ⟨r, fs⟩ := g
      by_cases hrp : r = p
      · subst hrp
        by_cases hq : q = r
        · subst hq; simp [addFile, groupFind]
        · have hq' : ¬r = q := fun hh => hq hh.symm
          simp [addFile, groupFind, hq, hq']
      · by_cases hq : r = q
        · subst hq
          simp [addFile, groupFind, hrp]
        · simp [addFile, groupFind, hrp, hq, ih]

lemma keysOf_addFile (gs : List (String × List String)) (p f : String) :
    keysOf (addFile gs p f) =
      if p ∈ keysOf gs then keysOf gs else keysOf gs ++ [p] := by
  induction gs with
  | nil => simp [addFile, keysOf]
  | cons g rest ih =>
      obtain ⟨r, fs⟩ := g
      by_cases hrp : r = p
      · subst hrp; simp [addFile, keysOf]
      · have hpr : ¬p = r := fun hh => hrp hh.symm
        simp only [addFile, if_neg hrp, keysOf, List.map_cons, List.mem_cons]
        simp only [keysOf] at ih
        rw [ih]
        by_cases hp : p ∈ rest.map (fun g => g.1)
        · simp [hp, hpr]
        · simp [hp, hpr]

lemma keysOf_nodup_addFile (gs : List (String × List String)) (p f : String)
    (h : (keysOf gs).Nodup) : (keysOf (addFile gs p f)).Nodup := by
  rw [keysOf_addFile]
  by_cases hp : p ∈ keysOf gs
  · rw [if_pos hp]; exact h
  · rw [if_neg hp]
    simp [List.nodup_append, h, hp]

lemma groupFind_foldl (files : List String) :
    ∀ (gs : List (String × List String)) (q : String),
      groupFind (files.foldl groupStep gs) q =
        groupFind gs q ++ files.filter (fun f => tagStem f = some q) := by
  induction files with
  | nil => intro gs q; simp
  | cons f rest ih =>
      intro gs q
      rw [List.foldl_cons]
      rw [ih (groupStep gs f) q]
      unfold groupStep
      cases hf : tagStem f with
      | none =>
          have : (decide (tagStem f = some q)) = false := by simp [hf]
          simp [List.filter_cons, this]
      | some p =>
          rw [groupFind_addFile]
          by_cases hq : q = p
          · subst hq
            have : (decide (tagStem f = some q)) = true := by simp [hf]
            simp [List.filter_cons, this]
          · have : (decide (tagStem f = some q)) = false := by
              simp [hf]
              exact fun hh => hq (hh.symm : q = p)
            simp [List.filter_cons, this, hq]

lemma keysOf_nodup_foldl (files : List String) :
    ∀ gs : List (String × List String), (keysOf gs).Nodup →
      (keysOf (files.foldl groupStep gs)).Nodup := by
  induction files with
  | nil => intro gs h; simpa using h
  | cons f rest ih =>
      intro gs h
      rw [List.foldl_cons]
      refine ih (groupStep gs f) ?_
      unfold groupStep
      cases tagStem f with
      | none => exact h
      | some p => exact keysOf_nodup_addFile gs p f h

lemma groupsOf_keys_nodup (files : List String) : (keysOf (groupsOf files)).Nodup :=
  keysOf_nodup_foldl files [] (by simp [keysOf])

lemma groupFind_groupsOf (files : List String) (q : String) :
    groupFind (groupsOf files) q = files.filter (fun f => tagStem f = some q) := by
  unfold groupsOf
  rw [groupFind_foldl files [] q]
  simp [groupFind]

lemma snd_eq_groupFind (gs : List (String × List String))
    (h : (keysOf gs).Nodup) : ∀ g ∈ gs, g.2 = groupFind gs g.1 := by
  induction gs with
  | nil => intro g hg; cases hg
  | cons g0 rest ih =>
      obtain ⟨r, fs⟩ := g0
      intro g hg
      simp only [keysOf, List.map_cons, List.nodup_cons] at h
      rcases List.mem_cons.mp hg with rfl | hmem
      · simp [groupFind]
      · have hne : r ≠ g.1 := by
          intro hh
          exact h.1 (hh ▸ List.mem_map.mpr ⟨g, hmem, rfl⟩)
        simp only [groupFind, if_neg hne]
        exact ih h.2 g hmem

lemma mem_keysOf_of_groupFind_ne (gs : List (String × List String)) (p : String)
    (h : groupFind gs p ≠ []) : p ∈ keysOf gs := by
  induction gs with
  | nil => simp [groupFind] at h
  | cons g rest ih =>
      obtain ⟨r, fs⟩ := g
      by_cases hr : r = p
      · subst hr; simp [keysOf]
      · simp only [groupFind, if_neg hr] at h
        simp only [keysOf, List.map_cons, List.mem_cons]
        exact Or.inr (ih h)

lemma lexLe_refl : ∀ a : List Char, lexLe a a = true := by
  intro a
  induction a with
  | nil => rfl
  | cons c cs ih => simp [lexLe, ih]

lemma lexLe_total : ∀ a b : List Char, lexLe a b = true ∨ lexLe b a = true := by
  intro a
  induction a with
  | nil => intro b; left; rfl
  | cons c cs ih =>
      intro b
      cases b with
      | nil => right; rfl
      | cons d ds =>
          by_cases h1 : c.toNat < d.toNat
          · left; simp [lexLe, h1]
          · by_cases h2 : d.toNat < c.toNat
            · right; simp [lexLe, h2]
            · rcases ih ds with h | h
              · left; simp [lexLe, h1, h2, h]
              · right; simp [lexLe, h1, h2, h]

lemma lexLe_trans : ∀ a b c : List Char,
    lexLe a b = true → lexLe b c = true → lexLe a c = true := by
  intro a
  induction a with
  | nil => intro b c _ _; rfl
  | cons x xs ih =>
      intro b c hab hbc
      cases b with
      | nil => simp [lexLe] at hab
      | cons y ys =>
          cases c with
          | nil => simp [lexLe] at hbc
          | cons z zs =>
              simp only [lexLe] at hab hbc ⊢
              by_cases h1 : x.toNat < y.toNat
              · by_cases h2 : y.toNat < z.toNat
                · simp [show x.toNat < z.toNat by omega]
                · by_cases h3 : z.toNat < y.toNat
                  · simp [h2, h3] at hbc
                  · simp [show x.toNat < z.toNat by omega]
              · by_cases h1' : y.toNat < x.toNat
                · simp [h1, h1'] at hab
                · by_cases h2 : y.toNat < z.toNat
                  · simp [show x.toNat < z.toNat by omega]
                  · by_cases h3 : z.toNat < y.toNat
                    · simp [h2, h3] at hbc
                    · have hx : ¬x.toNat < z.toNat := by omega
                      have hz : ¬z.toNat < x.toNat := by omega
                      simp only [if_neg h1, if_neg h1'] at hab
                      simp only [if_neg h2, if_neg h3] at hbc
                      simp only [if_neg hx, if_neg hz]
                      exact ih ys zs hab hbc

lemma strLeB_refl (a : String) : strLeB a a = true := lexLe_refl a.toList

lemma strLeB_total (a b : String) : strLeB a b = true ∨ strLeB b a = true :=
  lexLe_total a.toList b.toList

lemma strLeB_trans {a b c : String} (h1 : strLeB a b = true) (h2 : strLeB b c = true) :
    strLeB a c = true := lexLe_trans a.toList b.toList c.toList h1 h2

lemma foldl_minStr_mem : ∀ (ss : List String) (s : String),
    ss.foldl (fun a b => if strLeB a b then a else b) s = s ∨
      ss.foldl (fun a b => if strLeB a b then a else b) s ∈ ss := by
  intro ss
  induction ss with
  | nil => intro s; left; rfl
  | cons b ss ih =>
      intro s
      rw [List.foldl_cons]
      rcases ih (if strLeB s b then s else b) with h | h
      · rw [h]
        by_cases hb : strLeB s b
        · rw [if_pos hb]; left; rfl
        · rw [if_neg hb]; right; exact List.mem_cons_self b ss
      · right; exact List.mem_cons_of_mem b h

lemma foldl_minStr_le : ∀ (ss : List String) (s q : String), (q = s ∨ q ∈ ss) →
    strLeB (ss.foldl (fun a b => if strLeB a b then a else b) s) q = true := by
  intro ss
  induction ss with
  | nil =>
      intro s q hq
      rcases hq with rfl | hq
      · exact strLeB_refl q
      · cases hq
  | cons b ss ih =>
      intro s q hq
      rw [List.foldl_cons]
      have hstep_s : strLeB (if strLeB s b then s else b) s = true := by
        by_cases hb : strLeB s b
        · rw [if_pos hb]; exact strLeB_refl s
        · rw [if_neg hb]
          rcases strLeB_total s b with h | h
          · exact absurd h hb
          · exact h
      have hstep_b : strLeB (if strLeB s b then s else b) b = true := by
        by_cases hb : strLeB s b
        · rw [if_pos hb]; exact hb
        · rw [if_neg hb]; exact strLeB_refl b
      have hres := ih (if strLeB s b then s else b)
      rcases hq with rfl | hq
      · exact strLeB_trans (hres _ (Or.inl rfl)) hstep_s
      · rcases List.mem_cons.mp hq with rfl | hq
        · exact strLeB_trans (hres _ (Or.inl rfl)) hstep_b
        · exact hres q (Or.inr hq)

lemma minStr_none_iff (ps : List String) : minStr ps = none ↔ ps = [] := by
  cases ps with
  | nil => simp [minStr]
  | cons s ss => simp [minStr]

lemma minStr_spec (ps : List String) (a : String) (h : minStr ps = some a) :
    a ∈ ps ∧ ∀ q ∈ ps, strLeB a q = true := by
  cases ps with
  | nil => simp [minStr] at h
  | cons s ss =>
      simp only [minStr, Option.some.injEq] at h
      subst h
      constructor
      · rcases foldl_minStr_mem ss s with h | h
        · rw [h]; exact List.mem_cons_self s ss
        · exact List.mem_cons_of_mem s h
      · intro q hq
        rcases List.mem_cons.mp hq with h' | hq
        · exact foldl_minStr_le ss s q (Or.inl h')
        · exact foldl_minStr_le ss s q (Or.inr hq)

/-- C7 (amended): `getDTIFitDataPrefix` keeps a candidate prefix exactly when
its list of glob-matched files — accumulated over the six suffix patterns,
with multiplicity, not necessarily one per suffix — has length exactly 6 and
every file in it looks like a recognized image; all other prefixes are
discarded. -/
theorem claim_C7 (lLI : String → Bool) (entries : List String) (p : String) :
    p ∈ keysOf (keptGroups lLI entries) ↔
      ((matchedFiles entries).filter (fun f => tagStem f = some p)).length = 6 ∧
      ∀ f ∈ (matchedFiles entries).filter (fun f => tagStem f = some p), lLI f = true := by
  have hnd := groupsOf_keys_nodup (matchedFiles entries)
  have hGF := groupFind_groupsOf (matchedFiles entries) p
  constructor
  · intro hp
    obtain ⟨g, hg, rfl⟩ := List.mem_map.mp hp
    have hg2 := List.mem_filter.mp hg
    have hg1 := List.mem_filter.mp hg2.1
    have hsnd := snd_eq_groupFind _ hnd g hg1.1
    rw [hsnd, hGF] at hg1 hg2
    constructor
    · have := hg1.2
      simpa using this
    · intro f hf
      exact List.all_eq_true.mp hg2.2 f hf
  · rintro ⟨hlen, hall⟩
    have hne : groupFind (groupsOf (matchedFiles entries)) p ≠ [] := by
      rw [hGF]
      intro h
      rw [h] at hlen
      simp at hlen
    have hpk := mem_keysOf_of_groupFind_ne _ p hne
    obtain ⟨g, hg, hfst⟩ := List.mem_map.mp hpk
    have hsnd := snd_eq_groupFind _ hnd g hg
    refine List.mem_map.mpr ⟨g, ?_, hfst⟩
    refine List.mem_filter.mpr ⟨List.mem_filter.mpr ⟨hg, ?_⟩, ?_⟩
    · rw [hsnd, hfst, hGF]
      simpa using hlen
    · rw [hsnd, hfst, hGF]
      exact List.all_eq_true.mpr hall

/-- Counterexample to C7 as stated: a directory whose six glob-matched files
share the prefix `foo` but include two `_V1` files and no `_L3` file at all.
The group does not contain one file for each of the six suffixes, yet
`getDTIFitDataPrefix` keeps the prefix and returns it. -/
theorem claim_C7_counterexample :
    getDTIFitDataPrefix (fun _ => true)
        ["foo_V1.nii", "foo_V1.img", "foo_V2.nii", "foo_V3.nii",
          "foo_L1.nii", "foo_L2.nii"] = some "foo" ∧
    ["foo_V1.nii", "foo_V1.img", "foo_V2.nii", "foo_V3.nii",
        "foo_L1.nii", "foo_L2.nii"].filter (globMatch "L3") = [] :=
  ⟨rfl, rfl⟩

/-- C8: when no valid prefix remains `getDTIFitDataPrefix` returns `none`
(rather than failing); with more than one valid prefix it triggers the warning
and returns the lexicographically smallest prefix (its base name — the model
works at entry-name level, where base name is the identity); `isDTIFitPath` is
true iff `getDTIFitDataPrefix` is non-none; and a directory holding the two
complete sets `foo_*` and `bar_*` yields `"bar"` with the warning emitted. -/
theorem claim_C8 :
    (∀ (lLI : String → Bool) (entries : List String),
      getDTIFitDataPrefix lLI entries = none ↔ keptGroups lLI entries = []) ∧
    (∀ (lLI : String → Bool) (entries : List String),
      1 < (keptGroups lLI entries).length →
      multiplePrefixesWarning lLI entries = true ∧
      ∃ p, getDTIFitDataPrefix lLI entries = some p ∧
        p ∈ keysOf (keptGroups lLI entries) ∧
        ∀ q ∈ keysOf (keptGroups lLI entries), strLeB p q = true) ∧
    (∀ (lLI : String → Bool) (entries : List String),
      isDTIFitPath lLI entries = (getDTIFitDataPrefix lLI entries).isSome) ∧
    (getDTIFitDataPrefix (fun _ => true)
        ["foo_V1.nii", "foo_V2.nii", "foo_V3.nii", "foo_L1.nii", "foo_L2.nii", "foo_L3.nii",
          "bar_V1.nii", "bar_V2.nii", "bar_V3.nii", "bar_L1.nii", "bar_L2.nii", "bar_L3.nii"] =
        some "bar" ∧
      multiplePrefixesWarning (fun _ => true)
        ["foo_V1.nii", "foo_V2.nii", "foo_V3.nii", "foo_L1.nii", "foo_L2.nii", "foo_L3.nii",
          "bar_V1.nii", "bar_V2.nii", "bar_V3.nii", "bar_L1.nii", "bar_L2.nii", "bar_L3.nii"] =
        true) := by
  refine ⟨?_, ?_, ?_, rfl, rfl⟩
  · intro lLI entries
    unfold getDTIFitDataPrefix
    rw [minStr_none_iff]
    exact List.map_eq_nil_iff
  · intro lLI entries h
    constructor
    · unfold multiplePrefixesWarning
      exact decide_eq_true h
    · cases hm : minStr ((keptGroups lLI entries).map (fun g => g.1)) with
      | none =>
          exfalso
          have := (minStr_none_iff _).mp hm
          have hk := List.map_eq_nil_iff.mp this
          rw [hk] at h
          simp at h
      | some p =>
          have hspec := minStr_spec _ p hm
          exact ⟨p, hm, hspec.1, hspec.2⟩
  · intro lLI entries
    rfl

/-- Witness for C8's multiple-prefix clause at the concrete two-set
directory. -/
theorem claim_C8_witness :
    multiplePrefixesWarning (fun _ => true)
        ["foo_V1.nii", "foo_V2.nii", "foo_V3.nii", "foo_L1.nii", "foo_L2.nii", "foo_L3.nii",
          "bar_V1.nii", "bar_V2.nii", "bar_V3.nii", "bar_L1.nii", "bar_L2.nii", "bar_L3.nii"] =
      true ∧
    ∃ p, getDTIFitDataPrefix (fun _ => true)
        ["foo_V1.nii", "foo_V2.nii", "foo_V3.nii", "foo_L1.nii", "foo_L2.nii", "foo_L3.nii",
          "bar_V1.nii", "bar_V2.nii", "bar_V3.nii", "bar_L1.nii", "bar_L2.nii", "bar_L3.nii"] =
        some p ∧
      p ∈ keysOf (keptGroups (fun _ => true)
        ["foo_V1.nii", "foo_V2.nii", "foo_V3.nii", "foo_L1.nii", "foo_L2.nii", "foo_L3.nii",
          "bar_V1.nii", "bar_V2.nii", "bar_V3.nii", "bar_L1.nii", "bar_L2.nii", "bar_L3.nii"]) ∧
      ∀ q ∈ keysOf (keptGroups (fun _ => true)
        ["foo_V1.nii", "foo_V2.nii", "foo_V3.nii", "foo_L1.nii", "foo_L2.nii", "foo_L3.nii",
          "bar_V1.nii", "bar_V2.nii", "bar_V3.nii", "bar_L1.nii", "bar_L2.nii", "bar_L3.nii"]),
        strLeB p q = true :=
  claim_C8.2.1 (fun _ => true)
    ["foo_V1.nii", "foo_V2.nii", "foo_V3.nii", "foo_L1.nii", "foo_L2.nii", "foo_L3.nii",
      "bar_V1.nii", "bar_V2.nii", "bar_V3.nii", "bar_L1.nii", "bar_L2.nii", "bar_L3.nii"]
    (by decide)

end Dtifit
